import Mathlib

set_option maxHeartbeats 1000000
set_option maxRecDepth 4000

/-!
Shallow embedding of the request-dispatch core of httpbun: the per-request
`Exchange` object (`exchange.go`) and the dispatcher (`server/server.go`).
Pure Lean translations of the Go functions, followed by theorems about them.
-/

/-! ### Generic list and string helpers -/

/-- Boolean prefix test on character lists; model of `strings.HasPrefix`
applied to the underlying bytes. -/
def isPfxOf : List Char → List Char → Bool
  | [], _ => true
  | _ :: _, [] => false
  | a :: s, b :: t => if a = b then isPfxOf s t else false

/-- Does `sub` occur as a contiguous segment of `l`? Model of
`strings.Contains`. -/
def seqContains : List Char → List Char → Bool
  | [], sub => isPfxOf sub []
  | a :: t, sub => if isPfxOf sub (a :: t) then true else seqContains t sub

/-- String-level segment containment. -/
def strContains (s sub : String) : Bool := seqContains s.data sub.data

/-- Model of Go `strconv.Quote` escaping for a single character, on the
printable subset that the program emits (quote and backslash get a
backslash escape, the common control characters get their letter escapes,
every other character is kept as is). -/
def goQuoteChar (c : Char) : List Char :=
  if c.toNat = 34 ∨ c.toNat = 92 then [Char.ofNat 92, c]
  else if c.toNat = 10 then [Char.ofNat 92, Char.ofNat 110]
  else if c.toNat = 13 then [Char.ofNat 92, Char.ofNat 114]
  else if c.toNat = 9 then [Char.ofNat 92, Char.ofNat 116]
  else [c]

/-- Model of Go `fmt` verb `%q` on a string: double-quoted with
backslash escapes. -/
def goQuote (s : String) : String :=
  String.mk (Char.ofNat 34 :: (s.data.flatMap goQuoteChar ++ [Char.ofNat 34]))

/-- Modelled from the spec: HTML escaping of a string ("HTML-escaped in the
link text and attribute"), as Go `html.EscapeString` would do it; the code
under test never calls such a function, this definition exists to compare
the spec sentence with what `Redirect` actually writes. -/
def htmlEscapeChar (c : Char) : List Char :=
  if c.toNat = 38 then "&amp;".data
  else if c.toNat = 60 then "&lt;".data
  else if c.toNat = 62 then "&gt;".data
  else if c.toNat = 34 then "&#34;".data
  else if c.toNat = 39 then "&#39;".data
  else [c]

/-- Modelled from the spec: HTML escaping of a whole string. -/
def htmlEscape (s : String) : String :=
  String.mk (s.data.flatMap htmlEscapeChar)

/-! ### Server configuration and request model -/

/-- Model of `server/spec.Spec`: the fields the core reads
(`PathPrefix` and `Commit`). -/
structure SrvSpec where
  pathPfx : String
  commit : String
deriving DecidableEq

/-- Model of the inbound `*http.Request` as the core consumes it: header
map (canonical keys, each with its ordered value list), the URL path and
host, the `Host` header field, the transport peer address, the body bytes,
and the parsed query/form value maps. -/
structure Request where
  header : List (String × List String)
  urlPath : String
  urlHost : String
  host : String
  remoteAddr : String
  body : List Nat
  queryParams : List (String × List String)
  formParams : List (String × List String)

/-- Lookup in a `map[string][]string`; a missing key yields the empty
list, exactly like indexing a Go map. -/
def getVals (args : List (String × List String)) (name : String) : List String :=
  match args.find? (fun p => p.1 == name) with
  | some p => p.2
  | none => []

/-- Model of `Exchange.HeaderValueLast`: the last value among repeated
header occurrences, or the empty string. -/
def headerValueLast (h : List (String × List String)) (name : String) : String :=
  (getVals h name).getLastD ""

/-- Model of `http.Header.Get`: the first value for the key, or the empty
string. -/
def headerGetFirst (h : List (String × List String)) (name : String) : String :=
  (getVals h name).headD ""

/-- Response header map being written through `ResponseWriter.Header().Set`. -/
abbrev RespHeaders := String → Option String

/-- `Header().Set(k, v)`: replace the value under `k`. -/
def setHdr (h : RespHeaders) (k v : String) : RespHeaders :=
  fun q => if q = k then some v else h q

/-- The `Fields` map of an `Exchange`. -/
abbrev Fields := String → Option String

/-- Write one field, `ex.Fields[name] = value`. -/
def setField (f : Fields) (k v : String) : Fields :=
  fun q => if q = k then some v else f q

/-- Model of `strings.TrimPrefix`: remove one leading occurrence of `p`
from `s` when present. -/
def trimPfx (s p : String) : String :=
  if isPfxOf p.data s.data then String.mk (s.data.drop p.data.length) else s

/-- Model of `exchange.Exchange`: the request, the field map, the capped
body contents, the derived URL path and host, the response headers written
so far, and the server configuration. The remaining URL fields that
`New` copies verbatim (scheme, query, fragment, ...) play no part in the
claims and are kept on the request itself. -/
structure Exchange where
  request : Request
  fields : Fields
  cappedBody : List Nat
  urlPath : String
  urlHost : String
  respHeaders : RespHeaders
  serverSpec : SrvSpec

/-- Model of `exchange.New`: build the Exchange; cap the body at 10000
bytes (`io.LimitReader`), strip the path prefix from the URL path, fill in
the URL host from the request host when empty, echo the `Origin` header
into `Access-Control-Allow-Origin` plus `Access-Control-Allow-Credentials`
when present, echo the `Access-Control-Request-*` headers, and advertise
the build via `X-Powered-By`. -/
def New (req : Request) (spec : SrvSpec) : Exchange :=
  let origin := headerValueLast req.header "Origin"
  let acrh := headerGetFirst req.header "Access-Control-Request-Headers"
  let acrm := headerGetFirst req.header "Access-Control-Request-Method"
  let h0 : RespHeaders := fun _ => none
  let h1 := if origin ≠ "" then
      setHdr (setHdr h0 "Access-Control-Allow-Origin" origin)
        "Access-Control-Allow-Credentials" "true"
    else h0
  let h2 := if acrh ≠ "" then setHdr h1 "Access-Control-Allow-Headers" acrh else h1
  let h3 := if acrm ≠ "" then setHdr h2 "Access-Control-Allow-Methods" acrm else h2
  let h4 := setHdr h3 "X-Powered-By" ("httpbun/" ++ spec.commit)
  { request := req
    fields := fun _ => none
    cappedBody := req.body.take 10000
    urlPath := trimPfx req.urlPath spec.pathPfx
    urlHost := if req.urlHost = "" ∧ req.host ≠ "" then req.host else req.urlHost
    respHeaders := h4
    serverSpec := spec }

/-- Model of `Exchange.BodyBytes`: `io.ReadAll` on the capped reader; the
in-memory model cannot fail, so the `nil`-on-error branch of the Go code
is unreachable here. -/
def BodyBytes (ex : Exchange) : List Nat := ex.cappedBody

/-! ### Regular expressions, `regexp.Regexp` model

A route pattern is a `regexp.Regexp`. The model keeps the fragment the
routes use: character literals, concatenation, alternation, Kleene star,
and (possibly named) capture groups numbered by opening parenthesis.
Matching follows Go's leftmost-first (Perl-priority) semantics:
alternation prefers the left branch, star is greedy, and
`FindStringSubmatch` takes the match at the leftmost possible start. -/

inductive Regex where
  | eps
  | ch (c : Char)
  | cat (r1 r2 : Regex)
  | alt (r1 r2 : Regex)
  | star (r : Regex)
  | grp (idx : Nat) (name : String) (r : Regex)
deriving DecidableEq

/-- Capture assignments: group index to captured text, most recent write
first (a later write for the same group shadows an earlier one, as in a
repeated star iteration). -/
abbrev Caps := List (Nat × String)

/-- All ways `r` can consume a prefix of `s`, in Perl priority order: each
element is the remaining input and the capture assignments. `fuel` bounds
the recursion; the top-level wrappers pass enough fuel for a complete
search, and a star iteration must consume input, which mirrors the
matcher never looping on an empty-width iteration. -/
def mall : Nat → Regex → List Char → Caps → List (List Char × Caps)
  | 0, _, _, _ => []
  | _ + 1, .eps, s, caps => [(s, caps)]
  | _ + 1, .ch _, [], _ => []
  | _ + 1, .ch c, a :: t, caps => if a = c then [(t, caps)] else []
  | fuel + 1, .cat r1 r2, s, caps =>
      (mall fuel r1 s caps).flatMap fun p => mall fuel r2 p.1 p.2
  | fuel + 1, .alt r1 r2, s, caps => mall fuel r1 s caps ++ mall fuel r2 s caps
  | fuel + 1, .star r, s, caps =>
      ((mall fuel r s caps).flatMap fun p =>
        if p.1.length < s.length then mall fuel (.star r) p.1 p.2 else []) ++ [(s, caps)]
  | fuel + 1, .grp i _ r, s, caps =>
      (mall fuel r s caps).map fun p =>
        (p.1, (i, String.mk (s.take (s.length - p.1.length))) :: p.2)

/-- Structural size of a pattern, used to budget matcher fuel. -/
def regexSize : Regex → Nat
  | .eps => 1
  | .ch _ => 1
  | .cat r1 r2 => regexSize r1 + regexSize r2 + 1
  | .alt r1 r2 => regexSize r1 + regexSize r2 + 1
  | .star r => regexSize r + 1
  | .grp _ _ r => regexSize r + 1

/-- Enough fuel for a complete priority search of `r` against `s`. -/
def fuelFor (r : Regex) (s : List Char) : Nat :=
  (s.length + 1) * (regexSize r + 1) + 1

/-- The capture groups of a pattern in opening-parenthesis order, with
their names (`""` for an unnamed group). -/
def collectGroups : Regex → List (Nat × String)
  | .eps => []
  | .ch _ => []
  | .cat r1 r2 => collectGroups r1 ++ collectGroups r2
  | .alt r1 r2 => collectGroups r1 ++ collectGroups r2
  | .star r => collectGroups r
  | .grp i n r => (i, n) :: collectGroups r

/-- Number of capture groups, `Regexp.NumSubexp`. -/
def numGroups (r : Regex) : Nat := (collectGroups r).length

/-- Model of `Regexp.SubexpNames`: index 0 is the whole match and carries
no name, index `i` is the name of group `i` (possibly `""`). -/
def subexpNames (r : Regex) : List String :=
  "" :: (collectGroups r).map (fun g => g.2)

/-- The text captured for group `i`, or `""` when the group did not
participate in the match — exactly the string Go places at `match[i]`. -/
def capVal (caps : Caps) (i : Nat) : String :=
  ((caps.find? (fun q => q.1 == i)).map (fun q => q.2)).getD ""

/-- Leftmost search: try a match starting at each position of `s`, left to
right, and return the matched text together with the captures. -/
def findSub (r : Regex) (s : List Char) : Option (String × Caps) :=
  match (mall (fuelFor r s) r s []).head? with
  | some p => some (String.mk (s.take (s.length - p.1.length)), p.2)
  | none =>
    match s with
    | [] => none
    | _ :: t => findSub r t

/-- Model of `Regexp.FindStringSubmatch`: `none` for no match, otherwise
the whole match followed by the text of each group in index order. -/
def findStringSubmatch (r : Regex) (s : String) : Option (List String) :=
  match findSub r s.data with
  | none => none
  | some (m, caps) =>
      some (m :: (List.range (numGroups r)).map (fun j => capVal caps (j + 1)))

/-- The field-loading loop of `MatchAndLoadFields`:
`for i, name := range names { if name != "" { fields[name] = match[i] } }`. -/
def loadFields : Fields → List String → List String → Fields
  | f, [], _ => f
  | f, _ :: _, [] => f
  | f, n :: ns, v :: vs => loadFields (if n = "" then f else setField f n v) ns vs

/-- The body of `Exchange.MatchAndLoadFields` on a path and field map:
run `FindStringSubmatch`, and on a match store every named group. -/
def matchCore (r : Regex) (path : String) (fields : Fields) : Bool × Fields :=
  match findStringSubmatch r path with
  | none => (false, fields)
  | some m => (true, loadFields fields (subexpNames r) m)

/-- Model of `Exchange.MatchAndLoadFields`; the Go receiver mutates the
shared `Fields` map, modelled by returning the updated exchange. -/
def MatchAndLoadFields (r : Regex) (ex : Exchange) : Bool × Exchange :=
  let res := matchCore r ex.urlPath ex.fields
  (res.1, { ex with fields := res.2 })

/-- Modelled from the spec: "attempts a full-string match of the context's
derived path against `pattern`" — true exactly when the pattern can match
the entire string. The code never anchors the pattern; this definition
exists to compare that spec sentence with the code's behaviour. -/
def specFullMatch (r : Regex) (s : String) : Bool :=
  (mall (fuelFor r s.data) r s.data []).any fun p => p.1.isEmpty

/-- Does the route pattern match somewhere in the path (the condition on
which `MatchAndLoadFields` reports a route hit)? -/
def routeMatches (r : Regex) (path : String) : Bool :=
  (findSub r path.data).isSome

/-! ### Dispatcher, `Server.ServeHTTP` model -/

/-- Outcome of one dispatched request: 404 for a path outside the
configured prefix, handler `idx` invoked with the exchange, or the
end-of-table 404. Both 404 outcomes write `http.NotFound`; they are kept
apart because the code reaches them on distinct return paths. -/
inductive Outcome where
  | notFoundPfx
  | handled (idx : Nat) (ex : Exchange)
  | notFoundRoute

/-- The route loop of `ServeHTTP`: try each pattern in table order, first
match wins and its handler index is invoked with the loaded exchange. -/
def dispatchAux : List Regex → Exchange → Nat → Outcome
  | [], _, _ => .notFoundRoute
  | r :: rest, ex, idx =>
    let res := MatchAndLoadFields r ex
    if res.1 then .handled idx res.2 else dispatchAux rest res.2 (idx + 1)

/-- Model of `Server.ServeHTTP`: reject paths outside the prefix with 404,
otherwise build the exchange and walk the route table. -/
def serveHTTP (spec : SrvSpec) (routes : List Regex) (req : Request) : Outcome :=
  if isPfxOf spec.pathPfx.data req.urlPath.data then
    dispatchAux routes (New req spec) 0
  else .notFoundPfx

/-! ### Parameter accessors -/

/-- Model of `exchange.singleParamValue`: absent parameter or more than
one value fail with a descriptive error, a single value is returned. -/
def singleParamValue (args : List (String × List String)) (name : String) :
    Except String String :=
  if (getVals args name).length = 0 then
    .error ("missing required param " ++ goQuote name)
  else if (getVals args name).length > 1 then
    .error ("too many values for param " ++ goQuote name ++ ", expected only one")
  else
    .ok ((getVals args name).headD "")

/-- Model of `Exchange.QueryParamSingle`. -/
def QueryParamSingle (ex : Exchange) (name : String) : Except String String :=
  singleParamValue ex.request.queryParams name

/-- Model of `Exchange.FormParamSingle`. -/
def FormParamSingle (ex : Exchange) (name : String) : Except String String :=
  singleParamValue ex.request.formParams name

/-! ### Redirect -/

/-- What `Exchange.Redirect` emits: the `Location` header, the HTTP
status, and the HTML fallback body. -/
structure RedirectOut where
  location : String
  status : Nat
  body : String
deriving DecidableEq

/-- The fixed text of the redirect body before the anchor. -/
def redirBodyPre : String :=
  "<!doctype html>\n<title>Redirecting...</title>\n<h1>Redirecting...</h1>\n<p>You should be redirected automatically to target URL: "

/-- The fixed text of the redirect body after the anchor. -/
def redirBodyPost : String :=
  ".  If not click the link.</p>\n"

/-- Model of `Exchange.Redirect`: a root-relative target gets the path
prefix prepended, `Location` is set, status 302 is emitted, and the body
holds an anchor whose `href` is the target under `%q` (Go quoting) and
whose link text is the target under `%s` (verbatim). -/
def Redirect (ex : Exchange) (target : String) : RedirectOut :=
  let t := if isPfxOf "/".data target.data then ex.serverSpec.pathPfx ++ target else target
  { location := t
    status := 302
    body := redirBodyPre ++ ("<a href=" ++ goQuote t ++ ">" ++ t ++ "</a>") ++ redirBodyPost }

/-! ### Scheme and client IP resolution -/

/-- Model of `Exchange.FindScheme`; the `HTTPBUN_SSL_CERT` environment
variable is an explicit input. -/
def FindScheme (req : Request) (sslCert : String) : String :=
  if headerValueLast req.header "X-Httpbun-Forwarded-Proto" ≠ "" then
    headerValueLast req.header "X-Httpbun-Forwarded-Proto"
  else if sslCert ≠ "" ∨ headerValueLast req.header "X-Httpbun-Forwarded-Proto" = "https" then
    "https"
  else
    "http"

/-- Model of `net.SplitHostPort` on the address shapes the program meets:
a bracketed host (`[h]:port`) or a plain host with exactly one colon;
anything else (no colon, too many colons, stray brackets) is an error,
returned as `none`. -/
def splitHostPort (s : String) : Option (String × String) :=
  match s.data with
  | '[' :: rest =>
    match rest.findIdx? (fun c => c = ']') with
    | none => none
    | some j =>
      match rest.drop (j + 1) with
      | ':' :: port =>
        if port.contains ':' ∨ port.contains '[' ∨ port.contains ']' then none
        else some (String.mk (rest.take j), String.mk port)
      | _ => none
  | cs =>
    if cs.count ':' = 1 ∧ ¬ cs.contains '[' ∧ ¬ cs.contains ']' then
      match cs.findIdx? (fun c => c = ':') with
      | some i => some (String.mk (cs.take i), String.mk (cs.drop (i + 1)))
      | none => none
    else none

/-- A parsed IP address: a dotted quad or eight 16-bit IPv6 groups. -/
inductive IPAddr where
  | v4 (a b c d : Nat)
  | v6 (gs : List Nat)
deriving DecidableEq

/-- One decimal field of a dotted quad: one to three digits, no leading
zero, value at most 255 (as `net.ParseIP` accepts since Go 1.17). -/
def parseV4Field (cs : List Char) : Option Nat :=
  if cs ≠ [] ∧ cs.length ≤ 3 ∧ cs.all (fun c => c.isDigit)
      ∧ (cs.length > 1 → cs.headD '0' ≠ '0') then
    let v := cs.foldl (fun acc c => acc * 10 + (c.toNat - 48)) 0
    if v ≤ 255 then some v else none
  else none

/-- Split a character list at every occurrence of `sep`, like
`strings.Split` with a one-character separator. -/
def splitOnCh (sep : Char) : List Char → List (List Char)
  | [] => [[]]
  | c :: t =>
    if c = sep then [] :: splitOnCh sep t
    else
      match splitOnCh sep t with
      | [] => [[c]]
      | g :: gs => (c :: g) :: gs

/-- Split a character list at every occurrence of `::`, like
`strings.Split` with the two-character separator, scanning leftmost
first. -/
def splitOnColon2 : List Char → List (List Char)
  | [] => [[]]
  | [c] => [[c]]
  | a :: b :: t =>
    if a = ':' ∧ b = ':' then [] :: splitOnColon2 t
    else
      match splitOnColon2 (b :: t) with
      | [] => [[a]]
      | g :: gs => (a :: g) :: gs

/-- Dotted-quad IPv4 parsing. -/
def parseIPv4 (s : String) : Option IPAddr :=
  match (splitOnCh '.' s.data).map parseV4Field with
  | [some a, some b, some c, some d] => some (.v4 a b c d)
  | _ => none

/-- Is `c` a hexadecimal digit? -/
def isHexCh (c : Char) : Bool :=
  c.isDigit ∨ (97 ≤ c.toLower.toNat ∧ c.toLower.toNat ≤ 102)

/-- One hexadecimal IPv6 group: one to four hex digits. -/
def parseV6Group (cs : List Char) : Option Nat :=
  if cs ≠ [] ∧ cs.length ≤ 4 ∧ cs.all (fun c => isHexCh c) then
    some (cs.foldl (fun acc c =>
      acc * 16 + (if c.isDigit then c.toNat - 48 else c.toLower.toNat - 87)) 0)
  else none

/-- Colon-separated hex groups; the empty list parses to no groups. -/
def parseV6Groups (cs : List Char) : Option (List Nat) :=
  if cs = [] then some []
  else (splitOnCh ':' cs).foldr
    (fun f acc => match parseV6Group f, acc with
      | some g, some gs => some (g :: gs)
      | _, _ => none)
    (some [])

/-- IPv6 literal parsing for hex-group forms, with at most one `::`
compression; embedded dotted quads are outside the modelled subset. -/
def parseIPv6 (s : String) : Option IPAddr :=
  match splitOnColon2 s.data with
  | [whole] =>
    match parseV6Groups whole with
    | some gs => if gs.length = 8 then some (.v6 gs) else none
    | none => none
  | [l, r] =>
    match parseV6Groups l, parseV6Groups r with
    | some gl, some gr =>
      if gl.length + gr.length ≤ 7 then
        some (.v6 (gl ++ List.replicate (8 - gl.length - gr.length) 0 ++ gr))
      else none
    | _, _ => none
  | _ => none

/-- Model of `net.ParseIP` on the modelled subset: addresses with a colon
parse as IPv6, the rest as dotted-quad IPv4. -/
def parseIP (s : String) : Option IPAddr :=
  if s.data.contains ':' then parseIPv6 s else parseIPv4 s

/-- Lowercase hex digits of a group, as `net.IP.String` prints them. -/
def hexGroup (n : Nat) : String := String.mk (Nat.toDigits 16 n)

/-- Longest run of zero groups (leftmost on ties), for `::` compression. -/
def bestZeroRun (gs : List Nat) : Nat × Nat :=
  (List.range gs.length).foldl
    (fun acc i =>
      let l := ((gs.drop i).takeWhile (fun g => g = 0)).length
      if l > acc.2 then (i, l) else acc)
    (0, 0)

/-- Join strings with a separator, like `strings.Join`. -/
def joinSep (sep : String) : List String → String
  | [] => ""
  | [x] => x
  | x :: xs => x ++ sep ++ joinSep sep xs

/-- IPv6 textual form with RFC 5952 zero-run compression. -/
def v6String (gs : List Nat) : String :=
  let best := bestZeroRun gs
  if best.2 ≥ 2 then
    joinSep ":" ((gs.take best.1).map hexGroup) ++ "::"
      ++ joinSep ":" ((gs.drop (best.1 + best.2)).map hexGroup)
  else
    joinSep ":" (gs.map hexGroup)

/-- Model of `net.IP.String`: dotted quad for IPv4 (including the
IPv4-mapped IPv6 form), compressed hex groups otherwise. -/
def ipString : IPAddr → String
  | .v4 a b c d =>
      toString a ++ "." ++ toString b ++ "." ++ toString c ++ "." ++ toString d
  | .v6 gs =>
    match gs with
    | [0, 0, 0, 0, 0, 65535, g6, g7] =>
        toString (g6 / 256) ++ "." ++ toString (g6 % 256) ++ "."
          ++ toString (g7 / 256) ++ "." ++ toString (g7 % 256)
    | _ => v6String gs

/-- Model of `Exchange.FindIncomingIPAddress`: the forwarded-for header
wins when present; otherwise the peer address is split and its host part
validated as an IP literal, with failures degrading to `""`. The second
component records whether the diagnostic `log.Printf` ran, which happens
exactly when the peer address cannot be split. -/
def FindIncomingIPAddress (req : Request) : String × Bool :=
  let fwd := headerValueLast req.header "X-Httpbun-Forwarded-For"
  if fwd ≠ "" then (fwd, false)
  else
    match splitHostPort req.remoteAddr with
    | none => ("", true)
    | some hp =>
      match parseIP hp.1 with
      | none => ("", false)
      | some ip => (ipString ip, false)

/-! ### Helper lemmas on the string utilities -/

theorem isPfxOf_append (l t : List Char) : isPfxOf l (l ++ t) = true := by
  induction l with
  | nil => rfl
  | cons a s ih => simp [isPfxOf, ih]

theorem isPfxOf_append_drop :
    ∀ p s : List Char, isPfxOf p s = true → p ++ s.drop p.length = s := by
  intro p
  induction p with
  | nil => intro s _; simp
  | cons a q ih =>
    intro s h
    cases s with
    | nil => simp [isPfxOf] at h
    | cons b t =>
      rw [isPfxOf] at h
      split at h
      · next hab =>
        subst hab
        simpa using ih t h
      · exact absurd h (by simp)

theorem take_append_self (a b : List Char) : (a ++ b).take a.length = a := by
  induction a with
  | nil => simp
  | cons x s ih => simp [ih]

theorem seqContains_of_isPfxOf {l sub : List Char} (h : isPfxOf sub l = true) :
    seqContains l sub = true := by
  cases l with
  | nil => simpa [seqContains] using h
  | cons a t => simp [seqContains, h]

theorem seqContains_append_left :
    ∀ (a l sub : List Char), seqContains l sub = true → seqContains (a ++ l) sub = true := by
  intro a
  induction a with
  | nil => intro l sub h; simpa using h
  | cons x s ih =>
    intro l sub h
    rw [List.cons_append, seqContains]
    split
    · rfl
    · exact ih l sub h

theorem seqContains_mid (a b c : List Char) : seqContains (a ++ (b ++ c)) b = true :=
  seqContains_append_left a (b ++ c) b (seqContains_of_isPfxOf (isPfxOf_append b c))

theorem strData_append (a b : String) : (a ++ b).data = a.data ++ b.data := rfl

theorem strContains_mid (a b c : String) : strContains (a ++ b ++ c) b = true := by
  show seqContains (a ++ b ++ c).data b.data = true
  rw [strData_append, strData_append, List.append_assoc]
  exact seqContains_mid a.data b.data c.data

/-! ### Helper lemmas on header and field maps -/

theorem setHdr_at (h : RespHeaders) (k v : String) : setHdr h k v k = some v := by
  simp [setHdr]

theorem setHdr_other (h : RespHeaders) (k v q : String) (hne : q ≠ k) :
    setHdr h k v q = h q := by
  simp [setHdr, hne]

theorem setField_at (f : Fields) (k v : String) : setField f k v k = some v := by
  simp [setField]

theorem setField_other (f : Fields) (k v q : String) (hne : q ≠ k) :
    setField f k v q = f q := by
  simp [setField, hne]

/-- Keys that no nonempty name in `ns` equals are untouched by the
field-loading loop. -/
theorem loadFields_frame :
    ∀ (ns vs : List String) (f : Fields) (k : String),
      (∀ n ∈ ns, n ≠ "" → k ≠ n) → loadFields f ns vs k = f k := by
  intro ns
  induction ns with
  | nil => intro vs f k _; rfl
  | cons n ns ih =>
    intro vs f k hk
    cases vs with
    | nil => rfl
    | cons v vs =>
      rw [loadFields]
      rw [ih _ _ k (fun m hm => hk m (List.mem_cons_of_mem _ hm))]
      split
      · rfl
      · next hne => exact setField_other f n v k (hk n (List.mem_cons_self _ _) hne)

/-- After the loading loop, a nonempty name whose position `i` is its
last occurrence holds the value at position `i`. -/
theorem loadFields_last :
    ∀ (ns vs : List String) (f : Fields) (i : Nat) (n v : String),
      ns[i]? = some n → vs[i]? = some v → n ≠ "" → n ∉ ns.drop (i + 1) →
      loadFields f ns vs n = some v := by
  intro ns
  induction ns with
  | nil => intro vs f i n v h; simp at h
  | cons m ns ih =>
    intro vs f i n v hn hv hne hlast
    cases vs with
    | nil => simp at hv
    | cons w vs =>
      cases i with
      | zero =>
        have hmn : m = n := by simpa using hn
        have hwv : w = v := by simpa using hv
        rw [← hmn] at hne hlast ⊢
        rw [← hwv]
        rw [loadFields, if_neg hne]
        rw [loadFields_frame ns vs _ m ?_]
        · exact setField_at f m w
        · intro q hq _ hqm
          rw [← hqm] at hq
          exact hlast (by simpa using hq)
      | succ i =>
        simp only [List.getElem?_cons_succ] at hn hv
        rw [loadFields]
        exact ih vs _ i n v hn hv hne (by simpa using hlast)

/-- In a list whose nonempty entries are pairwise distinct, any position
of a nonempty name is its last occurrence. -/
theorem lastOcc_of_filterNodup :
    ∀ (ns : List String) (i : Nat) (n : String),
      (ns.filter (fun x => x ≠ "")).Nodup → ns[i]? = some n → n ≠ "" →
      n ∉ ns.drop (i + 1) := by
  intro ns
  induction ns with
  | nil => intro i n _ h; simp at h
  | cons m ns ih =>
    intro i n hnd hn hne
    cases i with
    | zero =>
      have hmn : m = n := by simpa using hn
      rw [← hmn] at hne ⊢
      simp only [List.drop_succ_cons, List.drop_zero]
      intro hmem
      have hfil : m ∈ ns.filter (fun x => x ≠ "") := by
        simp [List.mem_filter, hmem, hne]
      have hdm : (decide (m ≠ "")) = true := by simpa using hne
      rw [List.filter_cons, hdm] at hnd
      rw [if_pos rfl, List.nodup_cons] at hnd
      exact hnd.1 hfil
    | succ i =>
      simp only [List.getElem?_cons_succ] at hn
      have hnd' : (ns.filter (fun x => x ≠ "")).Nodup := by
        rw [List.filter_cons] at hnd
        split at hnd
        · exact (List.nodup_cons.mp hnd).2
        · exact hnd
      simpa using ih i n hnd' hn hne

/-! ### Soundness of the matcher: rests are suffixes, captures are
segments of the input -/

/-- Every outcome of `mall` leaves a suffix of the input, and every
capture it records beyond the inherited ones is a contiguous segment of
the input. -/
theorem mall_sound :
    ∀ (fuel : Nat) (r : Regex) (s : List Char) (caps : Caps) (p : List Char × Caps),
      p ∈ mall fuel r s caps →
      (∃ t, t ++ p.1 = s)
      ∧ (∀ q ∈ p.2, q ∈ caps ∨ ∃ pre post, pre ++ q.2.data ++ post = s) := by
  intro fuel
  induction fuel with
  | zero => intro r s caps p hp; simp [mall] at hp
  | succ fuel ih =>
    intro r
    cases r with
    | eps =>
      intro s caps p hp
      simp only [mall, List.mem_singleton] at hp
      subst hp
      exact ⟨⟨[], rfl⟩, fun q hq => .inl hq⟩
    | ch c =>
      intro s caps p hp
      cases s with
      | nil => simp [mall] at hp
      | cons a t =>
        rw [mall] at hp
        split at hp
        · next hac =>
          simp only [List.mem_singleton] at hp
          subst hp
          exact ⟨⟨[a], rfl⟩, fun q hq => .inl hq⟩
        · simp at hp
    | cat r1 r2 =>
      intro s caps p hp
      rw [mall, List.mem_flatMap] at hp
      obtain ⟨p1, hp1, hp2⟩ := hp
      obtain ⟨⟨t1, ht1⟩, hc1⟩ := ih r1 s caps p1 hp1
      obtain ⟨⟨t2, ht2⟩, hc2⟩ := ih r2 p1.1 p1.2 p hp2
      refine ⟨⟨t1 ++ t2, by rw [List.append_assoc, ht2, ht1]⟩, ?_⟩
      intro q hq
      rcases hc2 q hq with hin | ⟨pre, post, hseg⟩
      · rcases hc1 q hin with hin' | ⟨pre, post, hseg⟩
        · exact .inl hin'
        · exact .inr ⟨pre, post, hseg⟩
      · refine .inr ⟨t1 ++ pre, post, ?_⟩
        rw [← ht1, ← hseg]
        simp [List.append_assoc]
    | alt r1 r2 =>
      intro s caps p hp
      rw [mall, List.mem_append] at hp
      rcases hp with hp | hp
      · exact ih r1 s caps p hp
      · exact ih r2 s caps p hp
    | star r =>
      intro s caps p hp
      rw [mall, List.mem_append] at hp
      rcases hp with hp | hp
      · rw [List.mem_flatMap] at hp
        obtain ⟨p1, hp1, hp2⟩ := hp
        split at hp2
        · obtain ⟨⟨t1, ht1⟩, hc1⟩ := ih r s caps p1 hp1
          obtain ⟨⟨t2, ht2⟩, hc2⟩ := ih (.star r) p1.1 p1.2 p hp2
          refine ⟨⟨t1 ++ t2, by rw [List.append_assoc, ht2, ht1]⟩, ?_⟩
          intro q hq
          rcases hc2 q hq with hin | ⟨pre, post, hseg⟩
          · rcases hc1 q hin with hin' | ⟨pre, post, hseg⟩
            · exact .inl hin'
            · exact .inr ⟨pre, post, hseg⟩
          · refine .inr ⟨t1 ++ pre, post, ?_⟩
            rw [← ht1, ← hseg]
            simp [List.append_assoc]
        · simp at hp2
      · simp only [List.mem_singleton] at hp
        subst hp
        exact ⟨⟨[], rfl⟩, fun q hq => .inl hq⟩
    | grp i nm r =>
      intro s caps p hp
      rw [mall, List.mem_map] at hp
      obtain ⟨p1, hp1, hp⟩ := hp
      obtain ⟨⟨t1, ht1⟩, hc1⟩ := ih r s caps p1 hp1
      subst hp
      refine ⟨⟨t1, ht1⟩, ?_⟩
      intro q hq
      rcases List.mem_cons.mp hq with hq | hq
      · subst hq
        refine .inr ⟨[], p1.1, ?_⟩
        have hlen : s.length - p1.1.length = t1.length := by
          rw [← ht1]
          simp
        simp only [List.nil_append]
        show (String.mk (s.take (s.length - p1.1.length))).data ++ p1.1 = s
        rw [hlen, ← ht1, take_append_self]
      · exact hc1 q hq

/-- The match that `findSub` returns is a contiguous segment of the
searched input, and so is every capture it reports. -/
theorem findSub_sound :
    ∀ (s : List Char) (r : Regex) (m : String) (caps : Caps),
      findSub r s = some (m, caps) →
      (∃ pre post, pre ++ m.data ++ post = s)
      ∧ (∀ q ∈ caps, ∃ pre post, pre ++ q.2.data ++ post = s) := by
  intro s
  induction s with
  | nil =>
    intro r m caps h
    rw [findSub] at h
    split at h
    · next p hp =>
      have hmem : p ∈ mall (fuelFor r []) r [] [] := by
        cases hl : mall (fuelFor r []) r [] [] with
        | nil => rw [hl] at hp; simp at hp
        | cons x xs => rw [hl] at hp; simp at hp; simp [hl, hp]
      obtain ⟨⟨t, ht⟩, hcaps⟩ := mall_sound _ _ _ _ _ hmem
      simp only [Option.some.injEq, Prod.mk.injEq] at h
      obtain ⟨hm, hc⟩ := h
      constructor
      · refine ⟨[], p.1, ?_⟩
        rw [← hm]
        show (String.mk (List.take (List.length [] - p.1.length) [])).data ++ p.1 = _
        have hp1 : p.1 = [] := by
          cases hp1 : p.1 with
          | nil => rfl
          | cons y ys => rw [hp1] at ht; simp at ht
        simp [hp1]
      · intro q hq
        rw [← hc] at hq
        rcases hcaps q hq with hin | hseg
        · simp at hin
        · exact hseg
    · exact absurd h (by simp)
  | cons a t iht =>
    intro r m caps h
    rw [findSub] at h
    split at h
    · next p hp =>
      have hmem : p ∈ mall (fuelFor r (a :: t)) r (a :: t) [] := by
        cases hl : mall (fuelFor r (a :: t)) r (a :: t) [] with
        | nil => rw [hl] at hp; simp at hp
        | cons x xs => rw [hl] at hp; simp at hp; simp [hl, hp]
      obtain ⟨⟨tt, htt⟩, hcaps⟩ := mall_sound _ _ _ _ _ hmem
      simp only [Option.some.injEq, Prod.mk.injEq] at h
      obtain ⟨hm, hc⟩ := h
      constructor
      · refine ⟨[], p.1, ?_⟩
        rw [← hm]
        show (String.mk ((a :: t).take ((a :: t).length - p.1.length))).data ++ p.1 = a :: t
        have hlen : (a :: t).length - p.1.length = tt.length := by
          rw [← htt]; simp
        rw [hlen, ← htt, take_append_self]
      · intro q hq
        rw [← hc] at hq
        rcases hcaps q hq with hin | hseg
        · simp at hin
        · exact hseg
    · obtain ⟨⟨pre, post, hseg⟩, hcaps⟩ := iht r m caps h
      refine ⟨⟨a :: pre, post, by rw [← hseg]; rfl⟩, ?_⟩
      intro q hq
      obtain ⟨pre, post, hseg⟩ := hcaps q hq
      exact ⟨a :: pre, post, by rw [← hseg]; rfl⟩

theorem isPfxOf_refl (l : List Char) : isPfxOf l l = true := by
  have h := isPfxOf_append l []
  simpa using h

theorem strContains_append_right (a b : String) : strContains (a ++ b) b = true := by
  show seqContains (a ++ b).data b.data = true
  rw [strData_append]
  exact seqContains_append_left a.data b.data b.data
    (seqContains_of_isPfxOf (isPfxOf_refl b.data))

/-! ### Bridge lemmas for `matchCore` and the dispatcher -/

theorem matchCore_of_none {r : Regex} {path : String} (f : Fields)
    (h : findStringSubmatch r path = none) : matchCore r path f = (false, f) := by
  simp [matchCore, h]

theorem matchCore_of_some {r : Regex} {path : String} {m : List String} (f : Fields)
    (h : findStringSubmatch r path = some m) :
    matchCore r path f = (true, loadFields f (subexpNames r) m) := by
  simp [matchCore, h]

theorem maf_fst (r : Regex) (ex : Exchange) :
    (MatchAndLoadFields r ex).1 = routeMatches r ex.urlPath := by
  cases h : findSub r ex.urlPath.data with
  | none => simp [MatchAndLoadFields, matchCore, findStringSubmatch, routeMatches, h]
  | some p => simp [MatchAndLoadFields, matchCore, findStringSubmatch, routeMatches, h]

theorem maf_no_match (r : Regex) (ex : Exchange)
    (h : routeMatches r ex.urlPath = false) : MatchAndLoadFields r ex = (false, ex) := by
  rw [routeMatches] at h
  cases hfs : findSub r ex.urlPath.data with
  | none => simp [MatchAndLoadFields, matchCore, findStringSubmatch, hfs]
  | some p => rw [hfs] at h; simp at h

/-- Full behaviour of the route loop: a miss on every pattern falls
through to the 404, a handler report pinpoints the first matching pattern,
and the first matching pattern is reported. -/
theorem dispatchAux_spec :
    ∀ (routes : List Regex) (ex : Exchange) (idx : Nat),
      ((∀ r ∈ routes, routeMatches r ex.urlPath = false) →
        dispatchAux routes ex idx = .notFoundRoute)
      ∧ (∀ k ex2, dispatchAux routes ex idx = .handled k ex2 →
          ∃ m rk, k = idx + m ∧ routes[m]? = some rk
            ∧ routeMatches rk ex.urlPath = true
            ∧ ∀ j rj, j < m → routes[j]? = some rj → routeMatches rj ex.urlPath = false)
      ∧ (∀ m rk, routes[m]? = some rk → routeMatches rk ex.urlPath = true →
          (∀ j rj, j < m → routes[j]? = some rj → routeMatches rj ex.urlPath = false) →
          ∃ ex2, dispatchAux routes ex idx = .handled (idx + m) ex2) := by
  intro routes
  induction routes with
  | nil =>
    intro ex idx
    refine ⟨fun _ => rfl, ?_, ?_⟩
    · intro k ex2 h
      simp [dispatchAux] at h
    · intro m rk h
      simp at h
  | cons r rest ih =>
    intro ex idx
    cases hb : routeMatches r ex.urlPath with
    | true =>
      have h1 : (MatchAndLoadFields r ex).1 = true := by rw [maf_fst, hb]
      have hd : dispatchAux (r :: rest) ex idx = .handled idx (MatchAndLoadFields r ex).2 := by
        rw [dispatchAux]
        simp [h1]
      refine ⟨?_, ?_, ?_⟩
      · intro hall
        exact absurd hb (by simp [hall r (List.mem_cons_self _ _)])
      · intro k ex2 h
        rw [hd] at h
        cases h
        exact ⟨0, r, by omega, by simp, hb, fun j rj hj => by omega⟩
      · intro m rk hm hmatch hearlier
        cases m with
        | zero =>
          refine ⟨(MatchAndLoadFields r ex).2, ?_⟩
          rw [hd]
          norm_num
        | succ i =>
          have h0 : routeMatches r ex.urlPath = false :=
            hearlier 0 r (by omega) (by simp)
          rw [h0] at hb
          cases hb
    | false =>
      have hmf := maf_no_match r ex hb
      have hd : dispatchAux (r :: rest) ex idx = dispatchAux rest ex (idx + 1) := by
        rw [dispatchAux, hmf]
        simp
      refine ⟨?_, ?_, ?_⟩
      · intro hall
        rw [hd]
        exact (ih ex (idx + 1)).1 (fun q hq => hall q (List.mem_cons_of_mem _ hq))
      · intro k ex2 h
        rw [hd] at h
        obtain ⟨m, rk, hk, hm, hmatch, hearlier⟩ := (ih ex (idx + 1)).2.1 k ex2 h
        refine ⟨m + 1, rk, by omega, by simpa using hm, hmatch, ?_⟩
        intro j rj hj hrj
        cases j with
        | zero =>
          have hrr : r = rj := by simpa using hrj
          rw [← hrr]
          exact hb
        | succ i =>
          exact hearlier i rj (by omega) (by simpa using hrj)
      · intro m rk hm hmatch hearlier
        cases m with
        | zero =>
          have hrr : r = rk := by simpa using hm
          rw [← hrr] at hmatch
          rw [hmatch] at hb
          cases hb
        | succ i =>
          obtain ⟨ex2, hex2⟩ := (ih ex (idx + 1)).2.2 i rk (by simpa using hm) hmatch
            (fun j rj hj hrj => hearlier (j + 1) rj (by omega) (by simpa using hrj))
          refine ⟨ex2, ?_⟩
          rw [hd, hex2]
          congr 1
          omega

/-! ### Concrete fixtures used by witnesses and counterexamples -/

/-- A request with nothing in it. -/
def reqPlain : Request :=
  { header := [], urlPath := "", urlHost := "", host := "", remoteAddr := "",
    body := [], queryParams := [], formParams := [] }

/-- A server configuration with an empty path prefix. -/
def spec0 : SrvSpec := { pathPfx := "", commit := "" }

/-- A server configuration mounted under `/api`. -/
def specApi : SrvSpec := { pathPfx := "/api", commit := "" }

/-- A request carrying two `Origin` header values. -/
def reqOrigin : Request :=
  { reqPlain with header := [("Origin", ["http://a.example", "http://b.example"])] }

/-- A request with a body of 10001 bytes. -/
def reqBig : Request := { reqPlain with body := List.replicate 10001 0 }

/-- A request whose path repeats the `/api` prefix. -/
def reqDouble : Request := { reqPlain with urlPath := "/api/api/x" }

/-- A request whose path starts with the `/api` prefix once. -/
def reqApiZ : Request := { reqPlain with urlPath := "/api/z" }

/-- A request whose forwarded-proto header carries a scheme that is
neither `http` nor `https`. -/
def reqFtp : Request := { reqPlain with header := [("X-Httpbun-Forwarded-Proto", ["ftp"])] }

/-- A request whose peer address splits into host and port but whose host
is not an IP literal. -/
def reqBadHost : Request := { reqPlain with remoteAddr := "abc:80" }

/-- A request with a forwarded-for header. -/
def reqFwd : Request :=
  { reqPlain with
    header := [("X-Httpbun-Forwarded-For", ["5.6.7.8"])]
    remoteAddr := "1.2.3.4:80" }

/-- An exchange whose derived path is `abc`. -/
def exAbc : Exchange :=
  { request := reqPlain, fields := fun _ => none, cappedBody := [], urlPath := "abc",
    urlHost := "", respHeaders := fun _ => none, serverSpec := spec0 }

/-- An exchange mounted under `/api`, used to exercise `Redirect`. -/
def exRedir : Exchange :=
  { request := reqPlain, fields := fun _ => none, cappedBody := [], urlPath := "",
    urlHost := "", respHeaders := fun _ => none, serverSpec := specApi }

/-- A regex matching one literal string. -/
def litR (s : String) : Regex := s.data.foldr (fun c r => Regex.cat (.ch c) r) .eps

/-- A regex matching one decimal digit. -/
def digitR : Regex :=
  .alt (.ch '0') (.alt (.ch '1') (.alt (.ch '2') (.alt (.ch '3') (.alt (.ch '4')
    (.alt (.ch '5') (.alt (.ch '6') (.alt (.ch '7') (.alt (.ch '8') (.ch '9')))))))))

/-- The route pattern `/items/(?P<id>[0-9]+)` of the spec's example. -/
def itemsPat : Regex :=
  Regex.cat (litR "/items/") (.grp 1 "id" (Regex.cat digitR (Regex.star digitR)))

/-- An exchange whose derived path is `/items/42`, with one unrelated
field already set. -/
def exItems : Exchange :=
  { request := reqPlain, fields := fun k => if k = "other" then some "keep" else none,
    cappedBody := [], urlPath := "/items/42", urlHost := "",
    respHeaders := fun _ => none, serverSpec := spec0 }

/-- The handler index of an outcome, if one was invoked. -/
def outcomeIdx : Outcome → Option Nat
  | .handled i _ => some i
  | _ => none

/-! ### Claim theorems -/

/-- C1: for every inbound request carrying an `Origin` header (the last
occurrence is used), `New` sets `Access-Control-Allow-Origin` to exactly
that value — never substituting the wildcard — together with
`Access-Control-Allow-Credentials: true`; with the header absent or
empty, neither response header is set. -/
theorem c1_new_cors_origin_echo (req : Request) (spec : SrvSpec) :
    (headerValueLast req.header "Origin" ≠ "" →
      (New req spec).respHeaders "Access-Control-Allow-Origin"
          = some (headerValueLast req.header "Origin")
        ∧ (New req spec).respHeaders "Access-Control-Allow-Credentials" = some "true")
    ∧ (headerValueLast req.header "Origin" = "" →
      (New req spec).respHeaders "Access-Control-Allow-Origin" = none
        ∧ (New req spec).respHeaders "Access-Control-Allow-Credentials" = none)
    ∧ headerValueLast req.header "Origin" = (getVals req.header "Origin").getLastD "" := by
  refine ⟨?_, ?_, rfl⟩ <;> intro h <;>
    constructor <;> simp only [New, setHdr, ite_apply, h] <;>
    simp <;> try exact h

/-- C1 witness: with `Origin` repeated, the last value is echoed and the
credentials header is set. -/
theorem c1_new_cors_origin_echo_wit :
    (New reqOrigin spec0).respHeaders "Access-Control-Allow-Origin" = some "http://b.example"
    ∧ (New reqOrigin spec0).respHeaders "Access-Control-Allow-Credentials" = some "true" :=
  (c1_new_cors_origin_echo reqOrigin spec0).1 (by decide)

/-- C2: reading the body through the capped reader yields the first
10000 bytes at most, independently of any header: a longer body is
truncated to exactly 10000 bytes and a shorter one is returned whole,
with no error path. -/
theorem c2_cappedBody_limit (req : Request) (spec : SrvSpec) :
    BodyBytes (New req spec) = req.body.take 10000
    ∧ (BodyBytes (New req spec)).length ≤ 10000
    ∧ (10000 ≤ req.body.length → (BodyBytes (New req spec)).length = 10000)
    ∧ (req.body.length ≤ 10000 → BodyBytes (New req spec) = req.body) := by
  refine ⟨rfl, ?_, ?_, ?_⟩
  · show (req.body.take 10000).length ≤ 10000
    rw [List.length_take]
    omega
  · intro h
    show (req.body.take 10000).length = 10000
    rw [List.length_take]
    omega
  · intro h
    show req.body.take 10000 = req.body
    exact List.take_of_length_le h

/-- C2 witness: a 10001-byte body reads back as exactly 10000 bytes. -/
theorem c2_cappedBody_limit_wit : (BodyBytes (New reqBig spec0)).length = 10000 :=
  (c2_cappedBody_limit reqBig spec0).2.2.1 (by
    show 10000 ≤ (List.replicate 10001 0).length
    rw [List.length_replicate]
    omega)

/-- C5: `singleParamValue` — hence `QueryParamSingle` and
`FormParamSingle` — errors naming the parameter when it is absent, errors
stating too many values were given and only one was expected when the
name has several values, and otherwise returns the sole value. -/
theorem c5_singleParamValue_spec (args : List (String × List String)) (name : String) :
    (getVals args name = [] →
      singleParamValue args name = .error ("missing required param " ++ goQuote name))
    ∧ (∀ v, getVals args name = [v] → singleParamValue args name = .ok v)
    ∧ (2 ≤ (getVals args name).length →
      singleParamValue args name
        = .error ("too many values for param " ++ goQuote name ++ ", expected only one"))
    ∧ (∀ ex : Exchange,
        QueryParamSingle ex name = singleParamValue ex.request.queryParams name
        ∧ FormParamSingle ex name = singleParamValue ex.request.formParams name)
    ∧ strContains ("missing required param " ++ goQuote name) (goQuote name) = true
    ∧ strContains ("too many values for param " ++ goQuote name ++ ", expected only one")
        (goQuote name) = true := by
  refine ⟨?_, ?_, ?_, fun ex => ⟨rfl, rfl⟩, ?_, ?_⟩
  · intro h
    simp [singleParamValue, h]
  · intro v h
    simp [singleParamValue, h]
  · intro h
    rw [singleParamValue, if_neg (by omega), if_pos (by omega)]
  · exact strContains_append_right _ _
  · exact strContains_mid _ _ _

/-- C5 witness: two values for `x` produce the too-many-values error,
one value is returned, absence produces the error naming `x`. -/
theorem c5_singleParamValue_spec_wit :
    singleParamValue [("x", ["1", "2"])] "x"
        = .error ("too many values for param " ++ goQuote "x" ++ ", expected only one")
    ∧ singleParamValue [("x", ["1"])] "x" = .ok "1"
    ∧ singleParamValue [] "x" = .error ("missing required param " ++ goQuote "x") :=
  ⟨(c5_singleParamValue_spec [("x", ["1", "2"])] "x").2.2.1 (by decide),
    (c5_singleParamValue_spec [("x", ["1"])] "x").2.1 "1" (by decide),
    (c5_singleParamValue_spec [] "x").1 (by decide)⟩

/-- C6 counterexample: `Redirect` does not HTML-escape the target. For
target `/x<y` under prefix `/api` the body carries the raw `/api/x<y` as
link text and nowhere contains its HTML-escaped form `/api/x&lt;y`,
although the claim requires the target HTML-escaped in both the `href`
attribute and the link text. -/
theorem c6_redirect_cex :
    (Redirect exRedir "/x<y").location = "/api/x<y"
    ∧ (Redirect exRedir "/x<y").status = 302
    ∧ strContains (Redirect exRedir "/x<y").body (">/api/x<y</a>") = true
    ∧ strContains (Redirect exRedir "/x<y").body (htmlEscape "/api/x<y") = false
    ∧ htmlEscape "/api/x<y" ≠ "/api/x<y" := by
  refine ⟨rfl, rfl, by decide, by decide, by decide⟩

/-- C6 amended: `Redirect` prepends the path prefix to a root-relative
target, sets `Location` to the result, emits status 302, and writes a
body containing an anchor to that same target — with the target
Go-quoted (`%q`) in the `href` attribute and verbatim (not HTML-escaped)
in the link text. -/
theorem c6_redirect_spec (ex : Exchange) (target : String) :
    (Redirect ex target).status = 302
    ∧ (Redirect ex target).location
        = (if isPfxOf "/".data target.data then ex.serverSpec.pathPfx ++ target else target)
    ∧ strContains (Redirect ex target).body
        ("<a href=" ++ goQuote ((Redirect ex target).location) ++ ">"
          ++ (Redirect ex target).location ++ "</a>") = true := by
  refine ⟨rfl, rfl, ?_⟩
  exact strContains_mid redirBodyPre _ redirBodyPost

/-- C7 counterexample: with prefix `/api` and incoming path `/api/api/x`
the derived path is `/api/x`, which still contains the configured
prefix, contradicting the claimed invariant. -/
theorem c7_derived_contains_pfx_cex :
    (New reqDouble specApi).urlPath = "/api/x"
    ∧ strContains (New reqDouble specApi).urlPath specApi.pathPfx = true := by
  refine ⟨by decide, by decide⟩

/-- C7 amended: `New` strips exactly one leading occurrence of the
configured prefix from the incoming path (and leaves the path unchanged
when it does not start with the prefix); later occurrences of the prefix
survive in the derived path. -/
theorem c7_trimPfx_once (req : Request) (spec : SrvSpec) :
    (isPfxOf spec.pathPfx.data req.urlPath.data = true →
      spec.pathPfx ++ (New req spec).urlPath = req.urlPath)
    ∧ (isPfxOf spec.pathPfx.data req.urlPath.data = false →
      (New req spec).urlPath = req.urlPath) := by
  constructor <;> intro h
  · show spec.pathPfx ++ trimPfx req.urlPath spec.pathPfx = req.urlPath
    rw [trimPfx, if_pos h]
    exact congrArg String.mk (isPfxOf_append_drop spec.pathPfx.data req.urlPath.data h)
  · show trimPfx req.urlPath spec.pathPfx = req.urlPath
    rw [trimPfx, if_neg (by simp [h])]

/-- C7 amended witness: prefix `/api` is stripped once from `/api/api/x`. -/
theorem c7_trimPfx_once_wit :
    specApi.pathPfx ++ (New reqDouble specApi).urlPath = reqDouble.urlPath :=
  (c7_trimPfx_once reqDouble specApi).1 (by decide)

/-- C8 counterexample: a forwarded-proto header value of `ftp` is
returned verbatim, although the claim allows only `https` or `http` as
results (and would demand `http` here). -/
theorem c8_findScheme_cex :
    FindScheme reqFtp "" = "ftp"
    ∧ FindScheme reqFtp "" ≠ "http"
    ∧ FindScheme reqFtp "" ≠ "https" := by
  refine ⟨by decide, by decide, by decide⟩

/-- C8 amended: a non-empty forwarded-proto header is returned verbatim,
taking precedence over the TLS configuration; with the header absent or
empty the scheme is `https` exactly when TLS is configured, else
`http`. -/
theorem c8_findScheme_spec (req : Request) (sslCert : String) :
    (headerValueLast req.header "X-Httpbun-Forwarded-Proto" ≠ "" →
      FindScheme req sslCert = headerValueLast req.header "X-Httpbun-Forwarded-Proto")
    ∧ (headerValueLast req.header "X-Httpbun-Forwarded-Proto" = "" →
      FindScheme req sslCert = if sslCert ≠ "" then "https" else "http") := by
  constructor <;> intro h
  · rw [FindScheme, if_pos h]
  · rw [FindScheme, if_neg (fun hn => hn h)]
    by_cases hc : sslCert = "" <;> simp [h, hc]

/-- C8 amended witness: with no forwarded-proto header and TLS
configured, the scheme is `https`. -/
theorem c8_findScheme_spec_wit : FindScheme reqPlain "cert.pem" = "https" := by
  have h := (c8_findScheme_spec reqPlain "cert.pem").2 (by decide)
  simpa using h

/-- C9 counterexample: with no forwarded-for header and peer address
`abc:80` — which splits, but whose host is not an IP literal — the
function returns the empty string without logging any diagnostic,
although the claim asserts a diagnostic is logged for malformed peer
addresses. -/
theorem c9_findIncomingIP_cex : FindIncomingIPAddress reqBadHost = ("", false) := by
  decide

/-- C9 amended: the forwarded-for header value is returned whenever
present, regardless of the peer address; otherwise the peer address is
split into host and port and the host validated as an IP literal, whose
canonical form is returned; malformed peer addresses yield the empty
string and never crash, with the diagnostic logged exactly when the
address cannot be split. -/
theorem c9_findIncomingIP_spec (req : Request) :
    (headerValueLast req.header "X-Httpbun-Forwarded-For" ≠ "" →
      FindIncomingIPAddress req
        = (headerValueLast req.header "X-Httpbun-Forwarded-For", false))
    ∧ (headerValueLast req.header "X-Httpbun-Forwarded-For" = "" →
        (splitHostPort req.remoteAddr = none → FindIncomingIPAddress req = ("", true))
        ∧ (∀ h p, splitHostPort req.remoteAddr = some (h, p) → parseIP h = none →
            FindIncomingIPAddress req = ("", false))
        ∧ (∀ h p ip, splitHostPort req.remoteAddr = some (h, p) → parseIP h = some ip →
            FindIncomingIPAddress req = (ipString ip, false))) := by
  constructor
  · intro h
    simp [FindIncomingIPAddress, h]
  · intro h
    refine ⟨?_, ?_, ?_⟩
    · intro hs
      simp [FindIncomingIPAddress, h, hs]
    · intro hh hp hs hip
      simp [FindIncomingIPAddress, h, hs, hip]
    · intro hh hp ip hs hip
      simp [FindIncomingIPAddress, h, hs, hip]

/-- C9 amended witness: a forwarded-for header wins over the peer
address, and parses of a well-formed peer succeed. -/
theorem c9_findIncomingIP_spec_wit :
    FindIncomingIPAddress reqFwd = ("5.6.7.8", false) :=
  (c9_findIncomingIP_spec reqFwd).1 (by decide)

/-- C4 counterexample: pattern `b` against derived path `abc`:
`MatchAndLoadFields` reports a match although the pattern does not match
the entire derived path — the search is a substring search, not the
claimed full-string match. -/
theorem c4_matchAndLoadFields_cex :
    (MatchAndLoadFields (Regex.ch 'b') exAbc).1 = true
    ∧ specFullMatch (Regex.ch 'b') exAbc.urlPath = false := by
  refine ⟨by decide, by decide⟩

/-- C4 amended: `MatchAndLoadFields` performs a leftmost unanchored
substring search of the derived path against the pattern (so it can
return true when the pattern matches only part of the path); on a match,
every named capture group is written into the field map keyed by group
name with the captured segment of the path as value (the empty string for
a non-participating group), unnamed groups are ignored, and the function
returns whether a match occurred. -/
theorem c4_matchAndLoadFields_submatch (r : Regex) (ex : Exchange)
    (hnd : ((subexpNames r).filter (fun n => n ≠ "")).Nodup) :
    ((MatchAndLoadFields r ex).1 = true ↔ (findSub r ex.urlPath.data).isSome = true)
    ∧ (∀ m caps, findSub r ex.urlPath.data = some (m, caps) →
        (∃ pre post, pre ++ m.data ++ post = ex.urlPath.data)
        ∧ (∀ i n, (subexpNames r)[i]? = some n → n ≠ "" →
            (MatchAndLoadFields r ex).2.fields n = some (capVal caps i)
            ∧ (capVal caps i = ""
              ∨ ∃ pre post, pre ++ (capVal caps i).data ++ post = ex.urlPath.data))) := by
  constructor
  · rw [maf_fst, routeMatches]
  · intro m caps hf
    refine ⟨(findSub_sound _ _ _ _ hf).1, ?_⟩
    intro i n hni hne
    have hfs : findStringSubmatch r ex.urlPath
        = some (m :: (List.range (numGroups r)).map (fun j => capVal caps (j + 1))) := by
      rw [findStringSubmatch, hf]
    have hload : (MatchAndLoadFields r ex).2.fields
        = loadFields ex.fields (subexpNames r)
            (m :: (List.range (numGroups r)).map (fun j => capVal caps (j + 1))) := by
      simp [MatchAndLoadFields, matchCore, hfs]
    cases i with
    | zero =>
      have : n = "" := by simpa [subexpNames] using hni.symm
      exact absurd this hne
    | succ j =>
      have hjlt : j < numGroups r := by
        have hlen : (subexpNames r).length = numGroups r + 1 := by
          simp [subexpNames, numGroups]
        by_contra hc
        rw [List.getElem?_eq_none (by omega)] at hni
        exact Option.noConfusion hni
      constructor
      · rw [hload]
        apply loadFields_last _ _ _ (j + 1) n _ hni _ hne
          (lastOcc_of_filterNodup _ _ _ hnd hni hne)
        simp [List.getElem?_map, List.getElem?_range, hjlt]
      · cases hfind : caps.find? (fun q => q.1 == j + 1) with
        | none => exact .inl (by simp [capVal, hfind])
        | some q =>
          have hq : q ∈ caps := List.mem_of_find?_eq_some hfind
          obtain ⟨pre, post, hseg⟩ := (findSub_sound _ _ _ _ hf).2 q hq
          refine .inr ⟨pre, post, ?_⟩
          have : capVal caps (j + 1) = q.2 := by simp [capVal, hfind]
          rw [this]
          exact hseg

/-- C4 amended witness: the pattern `/items/(?P<id>[0-9]+)` on derived
path `/items/42` stores `"42"` under field `id`. -/
theorem c4_matchAndLoadFields_submatch_wit :
    (MatchAndLoadFields itemsPat exItems).2.fields "id" = some "42" := by
  have h := ((c4_matchAndLoadFields_submatch itemsPat exItems (by decide)).2
    "/items/42" [(1, "42")] (by decide)).2 1 "id" (by decide) (by decide)
  exact h.1

/-- C10: when `MatchAndLoadFields` returns false the field map (and the
whole exchange) is unchanged, and when it returns true only keys equal to
the pattern's named capture-group names are written — every entry under
any other key keeps its value. -/
theorem c10_matchAndLoadFields_frame (r : Regex) (ex : Exchange) :
    ((MatchAndLoadFields r ex).1 = false → (MatchAndLoadFields r ex).2 = ex)
    ∧ ((MatchAndLoadFields r ex).1 = true →
        ∀ k, k ∉ ((collectGroups r).map (fun g => g.2)).filter (fun n => n ≠ "") →
          (MatchAndLoadFields r ex).2.fields k = ex.fields k) := by
  cases hf : findStringSubmatch r ex.urlPath with
  | none =>
    constructor
    · intro _
      simp [MatchAndLoadFields, matchCore, hf]
    · intro htrue
      simp [MatchAndLoadFields, matchCore, hf] at htrue
  | some m =>
    constructor
    · intro hfalse
      simp [MatchAndLoadFields, matchCore, hf] at hfalse
    · intro _ k hk
      have hload : (MatchAndLoadFields r ex).2.fields
          = loadFields ex.fields (subexpNames r) m := by
        simp [MatchAndLoadFields, matchCore, hf]
      rw [hload]
      apply loadFields_frame
      intro n hn hne hkn
      apply hk
      rw [hkn]
      rcases List.mem_cons.mp hn with h0 | hmem
      · exact absurd h0 hne
      · exact List.mem_filter.mpr ⟨hmem, by simpa using hne⟩

/-- C10 witness: a pre-existing field under an unrelated key survives a
successful match. -/
theorem c10_matchAndLoadFields_frame_wit :
    (MatchAndLoadFields itemsPat exItems).2.fields "other" = exItems.fields "other" :=
  (c10_matchAndLoadFields_frame itemsPat exItems).2 (by decide) "other" (by decide)

/-- C3: the dispatcher responds 404 straight away when the request path
does not start with the configured prefix; otherwise it walks the route
table in order against the derived path, invokes the handler of the
first matching pattern and no other — in particular when two patterns
match, the earlier-listed one wins — and responds 404 when none
matches. -/
theorem c3_serveHTTP_dispatch (spec : SrvSpec) (routes : List Regex) (req : Request) :
    (isPfxOf spec.pathPfx.data req.urlPath.data = false →
      serveHTTP spec routes req = .notFoundPfx)
    ∧ (isPfxOf spec.pathPfx.data req.urlPath.data = true →
        ((∀ r ∈ routes, routeMatches r (New req spec).urlPath = false) →
          serveHTTP spec routes req = .notFoundRoute)
        ∧ (∀ k ex2, serveHTTP spec routes req = .handled k ex2 →
            ∃ rk, routes[k]? = some rk
              ∧ routeMatches rk (New req spec).urlPath = true
              ∧ ∀ j rj, j < k → routes[j]? = some rj →
                  routeMatches rj (New req spec).urlPath = false)
        ∧ (∀ k rk, routes[k]? = some rk → routeMatches rk (New req spec).urlPath = true →
            (∀ j rj, j < k → routes[j]? = some rj →
                routeMatches rj (New req spec).urlPath = false) →
            ∃ ex2, serveHTTP spec routes req = .handled k ex2)) := by
  constructor
  · intro h
    rw [serveHTTP, if_neg (by simp [h])]
  · intro h
    have hs : serveHTTP spec routes req = dispatchAux routes (New req spec) 0 := by
      rw [serveHTTP, if_pos h]
    refine ⟨?_, ?_, ?_⟩
    · intro hall
      rw [hs]
      exact (dispatchAux_spec routes (New req spec) 0).1 hall
    · intro k ex2 hk
      rw [hs] at hk
      obtain ⟨m, rk, hkm, hm, hmatch, hearlier⟩ :=
        (dispatchAux_spec routes (New req spec) 0).2.1 k ex2 hk
      have hk0 : k = m := by omega
      subst hk0
      exact ⟨rk, hm, hmatch, hearlier⟩
    · intro k rk hm hmatch hearlier
      obtain ⟨ex2, hex2⟩ :=
        (dispatchAux_spec routes (New req spec) 0).2.2 k rk hm hmatch hearlier
      rw [Nat.zero_add] at hex2
      exact ⟨ex2, by rw [hs, hex2]⟩

/-- C3 witness: with two patterns both matching the derived path, the
handler at index 0 is invoked, never the one at index 1. -/
theorem c3_serveHTTP_dispatch_wit :
    outcomeIdx (serveHTTP spec0 [Regex.eps, Regex.eps] reqPlain) = some 0 := by
  obtain ⟨ex2, hex2⟩ := ((c3_serveHTTP_dispatch spec0 [Regex.eps, Regex.eps] reqPlain).2
      (by decide)).2.2 0 Regex.eps (by decide) (by decide)
      (fun j rj hj => absurd hj (Nat.not_lt_zero j))
  rw [hex2]
  rfl
